import Mathlib

/-!
Verification of the `richtablebuilder` library: a shallow embedding of the
value-extraction / reduction / formatting pipeline of `richtablebuilder.py`
(path accessors, table fields, normal and transposed table assembly, the
value-consistent styling helper), together with theorems settling the
specified properties.
-/

namespace RichTableBuilder

/-- Keys usable in `Obj[...]` subscript steps: Python strings or ints. -/
inductive PyKey where
  | str (s : String)
  | int (n : Int)
deriving DecidableEq, Repr

/-- The universe of Python data values flowing through the pipeline. -/
inductive PyVal where
  | none
  | bool (b : Bool)
  | int (n : Int)
  | str (s : String)
  | list (xs : List PyVal)
  | dict (xs : List (PyKey × PyVal))
  | obj (attrs : List (String × PyVal))

/-- Python exceptions relevant to the embedded code. -/
inductive PyErr where
  | keyError (msg : String)
  | indexError (msg : String)
  | typeError (msg : String)
deriving DecidableEq, Repr

/-- The name of a value's Python type, as used in error messages. -/
def pyTypeName : PyVal → String
  | .none => "NoneType"
  | .bool _ => "bool"
  | .int _ => "int"
  | .str _ => "str"
  | .list _ => "list"
  | .dict _ => "dict"
  | .obj _ => "object"

/-- Python truthiness of an embedded value. -/
def pyTruthy : PyVal → Bool
  | .none => false
  | .bool b => b
  | .int n => n != 0
  | .str s => !s.isEmpty
  | .list xs => !xs.isEmpty
  | .dict xs => !xs.isEmpty
  | .obj _ => true

/-- Python `repr` of a key (string keys quoted, ints bare). -/
def pyReprKey : PyKey → String
  | .str s => "\x27" ++ s ++ "\x27"
  | .int n => toString n

/-- Python `repr` of an embedded value. -/
def pyRepr : PyVal → String
  | .none => "None"
  | .bool true => "True"
  | .bool false => "False"
  | .int n => toString n
  | .str s => "\x27" ++ s ++ "\x27"
  | .list xs =>
      "[" ++ String.intercalate ", " (xs.attach.map (fun x => pyRepr x.1)) ++ "]"
  | .dict xs =>
      "\x7b" ++
        String.intercalate ", "
          (xs.attach.map (fun x => pyReprKey x.1.1 ++ ": " ++ pyRepr x.1.2)) ++
      "\x7d"
  | .obj _ => "<object>"
decreasing_by
  · have h := List.sizeOf_lt_of_mem x.2
    simp only [PyVal.list.sizeOf_spec]
    omega
  · have h := List.sizeOf_lt_of_mem x.2
    have h2 : sizeOf x.1.2 < sizeOf x.1 := by
      obtain ⟨a, b⟩ := x.1
      simp only [Prod.mk.sizeOf_spec]
      omega
    simp only [PyVal.dict.sizeOf_spec]
    omega

/-- Python `str` of an embedded value (strings bare, containers via repr). -/
def pyStr : PyVal → String
  | .str s => s
  | v => pyRepr v

/-- One step of an accessor path: subscript `[k]` or attribute `.a`. -/
inductive Accessor where
  | key (k : PyKey)
  | attr (a : String)
deriving DecidableEq, Repr

/-- Association-list lookup for dict entries, by key value equality. -/
def lookupKey : List (PyKey × PyVal) → PyKey → Option PyVal
  | [], _ => Option.none
  | (k, v) :: rest, q => if k = q then some v else lookupKey rest q

/-- Association-list lookup for object attributes. -/
def lookupAttr : List (String × PyVal) → String → Option PyVal
  | [], _ => Option.none
  | (a, v) :: rest, q => if a = q then some v else lookupAttr rest q

/-- Python list indexing with negative-index support. -/
def listIndex (xs : List PyVal) (n : Int) : Option PyVal :=
  if 0 ≤ n ∧ n < xs.length then xs.get? n.toNat
  else if -(xs.length : Int) ≤ n ∧ n < 0 then xs.get? (xs.length + n).toNat
  else Option.none

/-- Python string indexing with negative-index support. -/
def strIndex (s : String) (n : Int) : Option PyVal :=
  if 0 ≤ n ∧ n < s.data.length then (s.data.get? n.toNat).map (fun c => .str (String.mk [c]))
  else if -(s.data.length : Int) ≤ n ∧ n < 0 then
    (s.data.get? (s.data.length + n).toNat).map (fun c => .str (String.mk [c]))
  else Option.none

/-- Embeds `obj[k]`: the Python subscript operation on embedded values.
Absent keys give `KeyError` / `IndexError`; subscripting a value that
does not support it gives `TypeError`. -/
def getItem : PyVal → PyKey → Except PyErr PyVal
  | .dict xs, k =>
      match lookupKey xs k with
      | some v => .ok v
      | Option.none => .error (.keyError (pyReprKey k))
  | .list xs, .int n =>
      match listIndex xs n with
      | some v => .ok v
      | Option.none => .error (.indexError "list index out of range")
  | .list _, .str _ => .error (.typeError "list indices must be integers or slices, not str")
  | .str s, .int n =>
      match strIndex s n with
      | some v => .ok v
      | Option.none => .error (.indexError "string index out of range")
  | .str _, .str _ => .error (.typeError "string indices must be integers")
  | v, _ => .error (.typeError ("\x27" ++ pyTypeName v ++ "\x27 object is not subscriptable"))

/-- Embeds `getattr(obj, a, MISSING)`: data-attribute lookup; `Option.none` models
the `MISSING` sentinel result. -/
def getAttrOpt : PyVal → String → Option PyVal
  | .obj attrs, a => lookupAttr attrs a
  | _, _ => Option.none

/-- One step of the accessor walk, as in `ObjType.__call__`:
`.ok (some v)` is a successful lookup, `.ok Option.none` is the `MISSING`
sentinel (caught `KeyError`/`IndexError`, or absent attribute), and
`.error e` is an uncaught exception (e.g. `TypeError`). -/
def stepLookup (cur : PyVal) : Accessor → Except PyErr (Option PyVal)
  | .key k =>
      match getItem cur k with
      | .ok v => .ok (some v)
      | .error (.keyError _) => .ok Option.none
      | .error (.indexError _) => .ok Option.none
      | .error e => .error e
  | .attr a => .ok (getAttrOpt cur a)

/-- The step loop of `ObjType.__call__`: after each step, if the current
value is `MISSING`, raise `KeyError(repr(self))` when no default was given,
else replace the current value with the default and continue. -/
def walkAccessors (fullRepr : String) : List Accessor → PyVal → Option PyVal →
    Except PyErr PyVal
  | [], cur, _ => .ok cur
  | step :: rest, cur, dflt =>
      match stepLookup cur step with
      | .error e => .error e
      | .ok (some v) => walkAccessors fullRepr rest v dflt
      | .ok Option.none =>
          match dflt with
          | Option.none => .error (.keyError fullRepr)
          | some d => walkAccessors fullRepr rest d dflt

/-- Embeds `ObjType`: an accessor path (ordered steps) plus post-transforms. -/
structure ObjType where
  accessors : List Accessor
  transforms : List (PyVal → PyVal)

/-- Embeds `ObjType.__repr__`: `Obj` followed by `.attr` / `[key]` segments in order. -/
def reprAccessor : Accessor → String
  | .key k => "[" ++ pyReprKey k ++ "]"
  | .attr a => "." ++ a

/-- The deterministic textual form of a path, as in `ObjType.__repr__`. -/
def ObjType.reprStr (p : ObjType) : String :=
  "Obj" ++ String.join (p.accessors.map reprAccessor)

/-- Embeds `ObjType.__call__`: walk the steps, then apply the transforms in order. -/
def ObjType.call (p : ObjType) (o : PyVal) (dflt : Option PyVal) : Except PyErr PyVal :=
  match walkAccessors p.reprStr p.accessors o dflt with
  | .error e => .error e
  | .ok v => .ok (p.transforms.foldl (fun acc f => f acc) v)

/-- Embeds `ObjType.__getitem__`: derive a new path with a trailing key step. -/
def ObjType.getitem (p : ObjType) (k : PyKey) : ObjType :=
  ⟨p.accessors ++ [Accessor.key k], []⟩

/-- Embeds `ObjType.__getattr__`: derive a new path with a trailing attribute step. -/
def ObjType.getattrStep (p : ObjType) (a : String) : ObjType :=
  ⟨p.accessors ++ [Accessor.attr a], []⟩

/-- Embeds `ObjType._apply`: register one more post-transform. -/
def ObjType.applyTransform (p : ObjType) (f : PyVal → PyVal) : ObjType :=
  ⟨p.accessors, p.transforms ++ [f]⟩

/-- The identity path `Obj`. -/
def Obj : ObjType := ⟨[], []⟩

/-- Renderables: raw values, `rich.text.Text`, or `rich.styled.Styled`. -/
inductive Renderable where
  | val (v : PyVal)
  | text (s : String) (style : String)
  | styled (r : Renderable) (style : String)

/-- Truthiness of a renderable, as used by the `or ""` fallbacks:
a raw value by Python truthiness, a `Text` by its length, a `Styled`
always truthy (no `__len__`/`__bool__`). -/
def Renderable.isTruthy : Renderable → Bool
  | .val v => pyTruthy v
  | .text s _ => !s.isEmpty
  | .styled _ _ => true

/-- Embeds `x or ""` on renderables. -/
def Renderable.orEmpty (r : Renderable) : Renderable :=
  if r.isTruthy then r else .val (.str "")

/-- A header or footer argument of `TableField`: a literal renderable, or a
callable reducer over the list of extracted values. -/
inductive HeaderVal where
  | literal (r : Renderable)
  | reducer (f : List PyVal → PyVal)

/-- A getter: called with the data object and the field's default. `Option.none`
as second argument models `NO_DEFAULT` (never passed by the build pipeline). -/
def Getter : Type := PyVal → Option PyVal → Except PyErr PyVal

/-- A value formatter (`Formatter = Callable[[Any], RenderableType]`). -/
def Formatter : Type := PyVal → Renderable

/-- The default formatter of `TableField.__init__`: Python `str`. -/
def strFormatter : Formatter := fun v => .val (.str (pyStr v))

/-- The state of a declared `TableField`. -/
structure TableField where
  header : HeaderVal
  footer : HeaderVal
  getter : Getter
  dflt : PyVal
  formatter : Option Formatter
  style : String
  header_style : String
  footer_style : String
  justify : String

/-- The `key` argument of `TableField.__init__`: `None`, a callable
(an `ObjType` path or an arbitrary getter function), a string, or
anything else (invalid). -/
inductive KeySpec where
  | pyNone
  | path (p : ObjType)
  | fn (g : Getter)
  | str (s : String)
  | other (v : PyVal)

/-- The message of the `TypeError` raised for an invalid key type. -/
def invalidKeyMsg (typeName : String) : String :=
  "Invalid key type: <class \x27" ++ typeName ++ "\x27>"

/-- Embeds `TableField.__init__`: dispatch on the key specification, raising
`TypeError` for a key that is neither `None`, callable, nor a string. -/
def mkTableField (header footer : HeaderVal) (key : KeySpec) (dflt : PyVal)
    (formatter : Option Formatter) (style header_style footer_style justify : String) :
    Except PyErr TableField :=
  match key with
  | .pyNone =>
      .ok ⟨header, footer, Obj.call, dflt, formatter, style, header_style, footer_style, justify⟩
  | .path p =>
      .ok ⟨header, footer, p.call, dflt, formatter, style, header_style, footer_style, justify⟩
  | .fn g =>
      .ok ⟨header, footer, g, dflt, formatter, style, header_style, footer_style, justify⟩
  | .str s =>
      .ok ⟨header, footer, (Obj.getitem (.str s)).call, dflt, formatter, style, header_style,
        footer_style, justify⟩
  | .other v => .error (.typeError (invalidKeyMsg (pyTypeName v)))

/-- Embeds `TableField._apply_style`: strings become `Text`, others are wrapped in
`Styled`. -/
def TableField.applyStyleFn (_tf : TableField) (val : Renderable) (style : String) : Renderable :=
  match val with
  | .val (.str s) => .text s style
  | v => .styled v style

/-- Embeds `self.style or default_style` (string truthiness). -/
def styleOr (s dfltStyle : String) : String :=
  if s.isEmpty then dfltStyle else s

/-- Embeds `TableField._get_field_value`: call the getter with the field default;
a `None` result is further replaced by the field default. -/
def TableField.getFieldValue (tf : TableField) (o : PyVal) : Except PyErr PyVal :=
  match tf.getter o (some tf.dflt) with
  | .error e => .error e
  | .ok v =>
      match v with
      | .none => .ok tf.dflt
      | v => .ok v

/-- Embeds `val is not None` as a boolean. -/
def isNotNone : PyVal → Bool
  | .none => false
  | _ => true

/-- Embeds `TableField._format_field_value`: replace `None` by `""`, then apply the
formatter when one is set (the replaced value is no longer `None`), then
optionally apply the style. -/
def TableField.formatFieldValue (tf : TableField) (val : PyVal) (applyStyle : Bool)
    (defaultStyle : String) : Renderable :=
  let val := match val with
    | .none => PyVal.str ""
    | v => v
  let r : Renderable := match tf.formatter with
    | some f => if isNotNone val then f val else .val val
    | Option.none => .val val
  if applyStyle then tf.applyStyleFn r (styleOr tf.style defaultStyle) else r

/-- Embeds `TableField._reduce_and_format`: a callable header/footer is applied to
the extracted values and its non-`None` result formatted; a literal is
returned as-is. -/
def TableField.reduceAndFormat (tf : TableField) (rx : HeaderVal) (values : List PyVal) :
    Renderable :=
  match rx with
  | .reducer f =>
      let value := f values
      match tf.formatter with
      | some fmt => if isNotNone value then fmt value else .val value
      | Option.none => .val value
  | .literal r => r

/-- Embeds `TableField._get_header`. -/
def TableField.getHeader (tf : TableField) (values : List PyVal) (applyStyle : Bool)
    (defaultStyle : String) : Renderable :=
  let value := tf.reduceAndFormat tf.header values
  if applyStyle then tf.applyStyleFn value (styleOr tf.header_style defaultStyle) else value

/-- Embeds `TableField._get_footer`. -/
def TableField.getFooter (tf : TableField) (values : List PyVal) (applyStyle : Bool)
    (defaultStyle : String) : Renderable :=
  let value := tf.reduceAndFormat tf.footer values
  if applyStyle then tf.applyStyleFn value (styleOr tf.footer_style defaultStyle) else value

/-- A `rich.table.Column` descriptor. -/
structure Column where
  header : Renderable
  footer : Renderable
  justify : String
  style : String
  header_style : String
  footer_style : String

/-- Embeds `TableField.column`. -/
def TableField.column (tf : TableField) (header : Renderable) (footer : Renderable) : Column :=
  ⟨header, footer, tf.justify, tf.style, tf.header_style, tf.footer_style⟩

/-- The table options relevant to the assembly logic (`TableOptions` keys
used by the build methods); an absent field models an absent dict key. -/
structure TableOptions where
  show_header : Option Bool
  show_footer : Option Bool
  style : Option String
  header_style : Option String
  footer_style : Option String

/-- The `rich.table.Table` artifact as seen through the narrow interface the
assembler uses: constructor columns and options, `add_row`, `add_section`. -/
structure RTable where
  columns : List Column
  options : TableOptions
  rows : List (List Renderable)
  sectionBreaksBefore : List Nat

/-- Embeds `Table.add_row`. -/
def RTable.addRow (t : RTable) (r : List Renderable) : RTable :=
  ⟨t.columns, t.options, t.rows ++ [r], t.sectionBreaksBefore⟩

/-- Embeds `Table.add_section`: records a section break before the next added row. -/
def RTable.addSection (t : RTable) : RTable :=
  ⟨t.columns, t.options, t.rows, t.sectionBreaksBefore ++ [t.rows.length]⟩

/-- The `TableFieldContent` named tuple. -/
structure TableFieldContent where
  header : Renderable
  values : List Renderable
  footer : Renderable

/-- A left-to-right loop applying `f` to each element, where a raised
exception aborts the whole loop (Python list comprehension semantics). -/
def mapExcept {α β : Type} (f : α → Except PyErr β) : List α → Except PyErr (List β)
  | [] => .ok []
  | a :: rest => do
      let b ← f a
      let bs ← mapExcept f rest
      pure (b :: bs)

/-- Embeds `TableBuilder._build_field_content`: extract the raw values, compute
header and footer from them, then format each value. -/
def buildFieldContent (tf : TableField) (items : List PyVal) (kw : TableOptions)
    (applyStyle : Bool) : Except PyErr TableFieldContent := do
  let values ← mapExcept tf.getFieldValue items
  let header := tf.getHeader values applyStyle (kw.header_style.getD "")
  let footer := tf.getFooter values applyStyle (kw.footer_style.getD "")
  let fvalues := values.map (fun v => tf.formatFieldValue v applyStyle (kw.style.getD ""))
  pure ⟨header, fvalues, footer⟩

/-- A section marker: `True` when no section function is configured, else the
section key of the row's record. -/
inductive Marker where
  | tt
  | key (k : Int)
deriving DecidableEq, Repr

/-- The builder state the build methods read: the ordered declared fields and
the optional section-key function (keys modelled as integers). -/
structure TableBuilderSpec where
  fields : List TableField
  section_by : Option (PyVal → Int)

/-- The row-emission loop of `_build_table_normal`: insert a section break
before a row whenever its marker differs from the running marker, which is
initialised to the first row's marker. -/
def addRowsLoop : RTable → Marker → List (Marker × List Renderable) → RTable
  | t, _, [] => t
  | t, current, (m, r) :: rest =>
      if m ≠ current then addRowsLoop ((t.addSection).addRow r) m rest
      else addRowsLoop (t.addRow r) current rest

/-- Row-major view of the per-field contents: row `i` collects the `i`-th
formatted value of every field (the append loop of `_build_table_normal`). -/
def rowsFromContents (contents : List TableFieldContent) (n : Nat) : List (List Renderable) :=
  (List.range n).map (fun i => contents.map (fun c => c.values.getD i (.val (.str ""))))

/-- Embeds `sorted(items, key=f)`: a stable sort by the section key (insertion sort
is the canonical stable sort, matching Python's stable `sorted`). -/
def sortRecords (f : PyVal → Int) (items : List PyVal) : List PyVal :=
  List.insertionSort (fun a b => f a ≤ f b) items

/-- The one `Column` descriptor per field, from its computed content
(`tf.column(header=..., footer=... or "")`). -/
def normalColumns (fields : List TableField) (contents : List TableFieldContent) :
    List Column :=
  (fields.zip contents).map (fun p => p.1.column p.2.header p.2.footer.orEmpty)

/-- The table assembly of `_build_table_normal` after extraction: construct
the table from the columns and options, then (when there are rows) run the
marker-driven row loop starting from the first row's marker. -/
def normalAssemble (fields : List TableField) (contents : List TableFieldContent)
    (markers : List Marker) (n : Nat) (kw : TableOptions) : RTable :=
  match rowsFromContents contents n with
  | [] => ⟨normalColumns fields contents, kw, [], []⟩
  | _ :: _ =>
      addRowsLoop ⟨normalColumns fields contents, kw, [], []⟩
        (markers.headD Marker.tt) (markers.zip (rowsFromContents contents n))

/-- The column/row assembly of `_build_table_normal`, after the records have
been sorted and the section markers computed. -/
def buildTableNormalCore (fields : List TableField) (items : List PyVal)
    (markers : List Marker) (kw : TableOptions) : Except PyErr RTable := do
  let contents ← mapExcept (fun tf => buildFieldContent tf items kw false) fields
  pure (normalAssemble fields contents markers items.length kw)

/-- Embeds `TableBuilder._build_table_normal`: sort by section key when configured,
compute one marker per (sorted) record, then assemble. -/
def buildTableNormal (B : TableBuilderSpec) (items : List PyVal) (kw : TableOptions) :
    Except PyErr RTable :=
  match B.section_by with
  | some f =>
      buildTableNormalCore B.fields (sortRecords f items)
        ((sortRecords f items).map (fun it => Marker.key (f it))) kw
  | Option.none => buildTableNormalCore B.fields items (items.map (fun _ => Marker.tt)) kw

/-- The options passed through to `rich.Table` in transposed mode: the
show-header/show-footer flags are popped and forced off. -/
def transposedOptions (kw : TableOptions) : TableOptions :=
  ⟨some false, some false, kw.style, kw.header_style, kw.footer_style⟩

/-- One render row of the transposed build: optional leading header cell,
the formatted-and-styled values, optional trailing footer cell. -/
def transposedRow (tf : TableField) (values : List PyVal) (kwT : TableOptions)
    (sh sf : Bool) : Except PyErr (List Renderable) := do
  let c ← buildFieldContent tf values kwT true
  pure ((if sh then [c.header.orEmpty] else []) ++ c.values ++
    (if sf then [c.footer.orEmpty] else []))

/-- The dummy column descriptors `Column(f"row{n}")` of the transposed build. -/
def transposedColumns (valueCount : Nat) (sh sf : Bool) : List Column :=
  (List.range (valueCount + (if sh then 1 else 0) + (if sf then 1 else 0))).map
    (fun n => Column.mk (.val (.str ("row" ++ toString n))) (.val (.str "")) "left" "" "" "")

/-- Embeds `TableBuilder._build_table_transposed`: read the show-header/show-footer
flags, force both off in the options handed to `rich.Table`, emit one row per
field with an optional leading header cell and trailing footer cell, and one
dummy column per render column. -/
def buildTableTransposed (B : TableBuilderSpec) (values : List PyVal) (kw : TableOptions) :
    Except PyErr RTable := do
  let rows ← mapExcept (fun tf => transposedRow tf values (transposedOptions kw)
    (kw.show_header.getD true) (kw.show_footer.getD false)) B.fields
  pure (rows.foldl (fun t r => t.addRow r)
    ⟨transposedColumns values.length (kw.show_header.getD true) (kw.show_footer.getD false),
     transposedOptions kw, [], []⟩)

/-- The state captured by one `style_by_value` closure: the value-to-style
memo and the "next style" generator (a pure stream plus a cursor). -/
structure StyleState (α : Type) where
  seen : List (α × String)
  gen : Nat → String
  idx : Nat

/-- Memo lookup by value equality (first matching entry). -/
def lookupSeen {α : Type} [DecidableEq α] : List (α × String) → α → Option String
  | [], _ => Option.none
  | (k, s) :: rest, v => if k = v then some s else lookupSeen rest v

/-- One application of the `style_by_value` formatter: a value not yet in the
memo is assigned the generator's next style; the memoised style is returned
either way, wrapped as `Styled(value, style)`. -/
def styleByValueApply {α : Type} [DecidableEq α] (st : StyleState α) (v : α) :
    (α × String) × StyleState α :=
  match lookupSeen st.seen v with
  | some s => ((v, s), st)
  | Option.none =>
      let s := st.gen st.idx
      ((v, s), ⟨st.seen ++ [(v, s)], st.gen, st.idx + 1⟩)

/-- A sequence of applications of one `style_by_value` instance. -/
def styleByValueMany {α : Type} [DecidableEq α] (st : StyleState α) :
    List α → List (α × String) × StyleState α
  | [] => ([], st)
  | v :: vs =>
      let rs := styleByValueApply st v
      let rest := styleByValueMany rs.2 vs
      (rs.1 :: rest.1, rest.2)

/-- Specification-side view of one emitted normal-mode row for a record:
each declared field's extracted value, formatted without styling. -/
def expectedRow (fields : List TableField) (kw : TableOptions) (item : PyVal) :
    Except PyErr (List Renderable) :=
  mapExcept (fun tf => (tf.getFieldValue item).map
    (fun v => tf.formatFieldValue v false (kw.style.getD ""))) fields

/-- Specification-side view of the section-break positions produced by
`addRowsLoop`: a break at offset `off + j` whenever the `j`-th marker differs
from its predecessor (the running marker for `j = 0`). -/
def breaksList (off : Nat) (cur : Marker) : List Marker → List Nat
  | [] => []
  | m :: ms => (if m ≠ cur then [off] else []) ++ breaksList (off + 1) m ms

/-- Specification-side predicate for "some step of the path is absent in the
object": the no-default walk reaches a step whose lookup is treated as
missing (caught `KeyError`/`IndexError` or absent attribute), all earlier
steps having succeeded. A step that raises an uncaught exception first makes
the predicate false. -/
def pathAbsent : List Accessor → PyVal → Bool
  | [], _ => false
  | st :: rest, cur =>
      match stepLookup cur st with
      | .ok (some v) => pathAbsent rest v
      | .ok Option.none => true
      | .error _ => false

/-- The shapes of `TypeError` messages arising from subscripting. -/
def subscriptTypeMsg (m : String) : Prop :=
  (∃ t, m = "\x27" ++ t ++ "\x27 object is not subscriptable") ∨
  m = "list indices must be integers or slices, not str" ∨
  m = "string indices must be integers"

/-- Empty option dict. -/
def kwEmpty : TableOptions :=
  ⟨Option.none, Option.none, Option.none, Option.none, Option.none⟩

/-- A concrete reducer summing integer values (the `footer=sum` use case). -/
def sumReducer : List PyVal → PyVal := fun vs =>
  .int (vs.foldl (fun acc v => acc + (match v with | .int n => n | _ => 0)) 0)

/-- Concrete field `TableField("Name", key="name", footer="Total")`. -/
def tfNameW : TableField :=
  ⟨.literal (.val (.str "Name")), .literal (.val (.str "Total")),
   (Obj.getitem (.str "name")).call, .none, some strFormatter, "", "", "", "left"⟩

/-- Concrete field `TableField("Qty", key="quantity", footer=sum)`. -/
def tfQtyW : TableField :=
  ⟨.literal (.val (.str "Qty")), .reducer sumReducer,
   (Obj.getitem (.str "quantity")).call, .none, some strFormatter, "", "", "", "right"⟩

/-- A concrete reducer that always yields `None`. -/
def C1red : List PyVal → PyVal := fun _ => .none

/-- A concrete constant formatter. -/
def C1fmt : Formatter := fun _ => .val (.str "X")

/-- A field whose footer reducer yields `None` while a formatter is set. -/
def C1tf : TableField :=
  ⟨.literal (.val (.str "H")), .reducer C1red, Obj.call, .none, some C1fmt, "", "", "", "left"⟩

/-- A concrete constant formatter for the null-formatting counterexample. -/
def C6fmt : Formatter := fun _ => .val (.str "X")

/-- A field with a non-default formatter, to probe `formatValue(None)`. -/
def C6tf : TableField :=
  ⟨.literal (.val (.str "")), .literal (.val (.str "")), Obj.call, .none, some C6fmt,
   "", "", "", "left"⟩

/-- Concrete records with a section key `g` and a `name`. -/
def recW1 : PyVal := .dict [(.str "g", .int 2), (.str "name", .str "x")]

/-- Second concrete record. -/
def recW2 : PyVal := .dict [(.str "g", .int 1), (.str "name", .str "y")]

/-- Third concrete record. -/
def recW3 : PyVal := .dict [(.str "g", .int 2), (.str "name", .str "z")]

/-- Concrete section-key function reading the `g` entry. -/
def secKeyW : PyVal → Int := fun v =>
  match v with
  | .dict xs =>
      match lookupKey xs (.str "g") with
      | some (.int n) => n
      | _ => 0
  | _ => 0

/-- Concrete two-field builder for the transposed-shape witness. -/
def C4builder : TableBuilderSpec := ⟨[tfNameW, tfQtyW], Option.none⟩

/-- Concrete records for the transposed-shape witness. -/
def C4records : List PyVal :=
  [.dict [(.str "name", .str "A"), (.str "quantity", .int 1)],
   .dict [(.str "name", .str "B"), (.str "quantity", .int 2)]]

/-- The transposed table built from the concrete witness inputs. -/
def C4table : RTable :=
  match buildTableTransposed C4builder C4records kwEmpty with
  | .ok t => t
  | .error _ => ⟨[], kwEmpty, [], []⟩

/-- Concrete single-field builder without a section function. -/
def C5builderNone : TableBuilderSpec := ⟨[tfNameW], Option.none⟩

/-- Concrete single-field builder with a section function. -/
def C5builderSec : TableBuilderSpec := ⟨[tfNameW], some secKeyW⟩

/-- Concrete records for the sectioning witness. -/
def C5records : List PyVal := [recW1, recW2, recW3]

/-- The normal table built without a section function. -/
def C5tableNone : RTable :=
  match buildTableNormal C5builderNone C5records kwEmpty with
  | .ok t => t
  | .error _ => ⟨[], kwEmpty, [], []⟩

/-- The normal table built with the section function. -/
def C5tableSec : RTable :=
  match buildTableNormal C5builderSec C5records kwEmpty with
  | .ok t => t
  | .error _ => ⟨[], kwEmpty, [], []⟩

/-- The build-time error produced by extracting `name` from a non-dict. -/
def C7err : PyErr :=
  match buildTableNormal C5builderNone [.int 5] kwEmpty with
  | .error e => e
  | .ok _ => .keyError ""

/-- A concrete style generator for the styling-memo witness. -/
def C8gen : Nat → String := fun i => toString i

/-- A fresh concrete styling-memo state. -/
def C8st : StyleState Nat := ⟨[], C8gen, 0⟩

/-! ### Helper lemmas -/

/-- Equation lemma: the empty walk returns the current value. -/
theorem walkAccessors_nil (fr : String) (cur : PyVal) (dflt : Option PyVal) :
    walkAccessors fr [] cur dflt = .ok cur := rfl

/-- Equation lemma: one step of the walk. -/
theorem walkAccessors_cons (fr : String) (step : Accessor) (rest : List Accessor)
    (cur : PyVal) (dflt : Option PyVal) :
    walkAccessors fr (step :: rest) cur dflt =
      (match stepLookup cur step with
       | .error e => .error e
       | .ok (some v) => walkAccessors fr rest v dflt
       | .ok Option.none =>
           match dflt with
           | Option.none => .error (.keyError fr)
           | some d => walkAccessors fr rest d dflt) := rfl

/-- Equation lemma: a key step looks up the subscript, catching
`KeyError`/`IndexError` as missing. -/
theorem stepLookup_key (cur : PyVal) (k : PyKey) :
    stepLookup cur (.key k) =
      (match getItem cur k with
       | .ok v => .ok (some v)
       | .error (.keyError _) => .ok Option.none
       | .error (.indexError _) => .ok Option.none
       | .error e => .error e) := rfl

/-- Equation lemma: an attribute step never raises. -/
theorem stepLookup_attr (cur : PyVal) (a : String) :
    stepLookup cur (.attr a) = .ok (getAttrOpt cur a) := rfl

/-- A `stepLookup` that raises (is not caught as missing) raises a
`TypeError` whose message is a subscripting message. -/
theorem stepLookup_error_msg (cur : PyVal) (st : Accessor) (e : PyErr)
    (h : stepLookup cur st = .error e) : ∃ m, e = .typeError m ∧ subscriptTypeMsg m := by
  cases st with
  | attr a => rw [stepLookup_attr] at h; simp at h
  | key k =>
      rw [stepLookup_key] at h
      cases hg : getItem cur k with
      | ok v => rw [hg] at h; simp at h
      | error e' =>
          rw [hg] at h
          cases e' with
          | keyError m => simp at h
          | indexError m => simp at h
          | typeError m =>
              simp at h
              refine ⟨m, h.symm, ?_⟩
              clear h
              cases cur with
              | dict xs => cases hk : lookupKey xs k <;> simp [getItem, hk] at hg
              | list xs =>
                  cases k with
                  | int n => cases hi : listIndex xs n <;> simp [getItem, hi] at hg
                  | str s =>
                      simp [getItem] at hg
                      exact Or.inr (Or.inl hg.symm)
              | str s =>
                  cases k with
                  | int n => cases hi : strIndex s n <;> simp [getItem, hi] at hg
                  | str q =>
                      simp [getItem] at hg
                      exact Or.inr (Or.inr hg.symm)
              | none => exact Or.inl ⟨pyTypeName .none, by simp [getItem] at hg; exact hg.symm⟩
              | bool b => exact Or.inl ⟨pyTypeName (.bool b), by simp [getItem] at hg; exact hg.symm⟩
              | int n => exact Or.inl ⟨pyTypeName (.int n), by simp [getItem] at hg; exact hg.symm⟩
              | obj attrs =>
                  exact Or.inl ⟨pyTypeName (.obj attrs), by simp [getItem] at hg; exact hg.symm⟩

/-- Any `KeyError` escaping the accessor walk carries the full path text. -/
theorem walk_keyError_names_path (fr : String) (steps : List Accessor) (dflt : Option PyVal)
    (s : String) : ∀ cur : PyVal,
    walkAccessors fr steps cur dflt = .error (.keyError s) → s = fr := by
  induction steps with
  | nil => intro cur h; rw [walkAccessors_nil] at h; simp at h
  | cons st rest ih =>
      intro cur h
      rw [walkAccessors_cons] at h
      cases hs : stepLookup cur st with
      | error e =>
          rw [hs] at h
          obtain ⟨m, rfl, _⟩ := stepLookup_error_msg _ _ _ hs
          simp at h
      | ok o =>
          rw [hs] at h
          cases o with
          | some v => exact ih v h
          | none =>
              cases dflt with
              | none => simp at h; exact h.symm
              | some d => exact ih d h

/-- Any `TypeError` escaping the accessor walk is a subscripting error. -/
theorem walk_typeError_subscript (fr : String) (steps : List Accessor) (dflt : Option PyVal)
    (m : String) : ∀ cur : PyVal,
    walkAccessors fr steps cur dflt = .error (.typeError m) → subscriptTypeMsg m := by
  induction steps with
  | nil => intro cur h; rw [walkAccessors_nil] at h; simp at h
  | cons st rest ih =>
      intro cur h
      rw [walkAccessors_cons] at h
      cases hs : stepLookup cur st with
      | error e =>
          rw [hs] at h
          obtain ⟨m', rfl, hsub⟩ := stepLookup_error_msg _ _ _ hs
          simp at h
          exact h ▸ hsub
      | ok o =>
          rw [hs] at h
          cases o with
          | some v => exact ih v h
          | none =>
              cases dflt with
              | none => simp at h
              | some d => exact ih d h

/-- Walking from the default with every step missing on the default
resubstitutes the default at each step and finally returns it. -/
theorem walk_all_miss (fr : String) (steps : List Accessor) (d : PyVal)
    (hd : ∀ st ∈ steps, stepLookup d st = .ok Option.none) :
    walkAccessors fr steps d (some d) = .ok d := by
  induction steps with
  | nil => rfl
  | cons st rest ih =>
      have h1 := hd st (List.mem_cons_self st rest)
      rw [walkAccessors_cons, h1]
      exact ih (fun x hx => hd x (List.mem_cons_of_mem _ hx))

/-- If the walk without a default misses, and every step misses on the
default, then the walk with that default returns the default. -/
theorem walk_default_of_missing (fr : String) (steps : List Accessor) (d : PyVal) :
    ∀ (obj : PyVal) (s : String),
    walkAccessors fr steps obj Option.none = .error (.keyError s) →
    (∀ st ∈ steps, stepLookup d st = .ok Option.none) →
    walkAccessors fr steps obj (some d) = .ok d := by
  induction steps with
  | nil => intro obj s h _; rw [walkAccessors_nil] at h; simp at h
  | cons st rest ih =>
      intro obj s h hd
      rw [walkAccessors_cons] at h ⊢
      cases hs : stepLookup obj st with
      | error e =>
          rw [hs] at h
          obtain ⟨m, rfl, _⟩ := stepLookup_error_msg _ _ _ hs
          simp at h
      | ok o =>
          rw [hs] at h
          cases o with
          | some v => exact ih v s h (fun x hx => hd x (List.mem_cons_of_mem _ hx))
          | none => exact walk_all_miss fr rest d (fun x hx => hd x (List.mem_cons_of_mem _ hx))

/-- Equation lemma: the empty path has no absent step. -/
theorem pathAbsent_nil (cur : PyVal) : pathAbsent [] cur = false := rfl

/-- Equation lemma: one step of the absence predicate. -/
theorem pathAbsent_cons (st : Accessor) (rest : List Accessor) (cur : PyVal) :
    pathAbsent (st :: rest) cur =
      (match stepLookup cur st with
       | .ok (some v) => pathAbsent rest v
       | .ok Option.none => true
       | .error _ => false) := rfl

/-- Forward direction of the raising half: when the no-default walk reaches
an absent step, it raises the `KeyError` carrying the full path text. -/
theorem walk_of_pathAbsent (fr : String) (steps : List Accessor) :
    ∀ cur : PyVal, pathAbsent steps cur = true →
    walkAccessors fr steps cur Option.none = .error (.keyError fr) := by
  induction steps with
  | nil => intro cur h; rw [pathAbsent_nil] at h; exact Bool.noConfusion h
  | cons st rest ih =>
      intro cur h
      rw [pathAbsent_cons] at h
      rw [walkAccessors_cons]
      cases hs : stepLookup cur st with
      | error e => rw [hs] at h; exact Bool.noConfusion h
      | ok o =>
          rw [hs] at h
          cases o with
          | some v => exact ih v h
          | none => rfl

/-- When the no-default walk reaches an absent step and every step misses
against the default, the walk with that default returns the default. -/
theorem walk_default_of_pathAbsent (fr : String) (steps : List Accessor) (d : PyVal) :
    ∀ obj : PyVal, pathAbsent steps obj = true →
    (∀ st ∈ steps, stepLookup d st = .ok Option.none) →
    walkAccessors fr steps obj (some d) = .ok d := by
  induction steps with
  | nil => intro obj h _; rw [pathAbsent_nil] at h; exact Bool.noConfusion h
  | cons st rest ih =>
      intro obj h hd
      rw [pathAbsent_cons] at h
      rw [walkAccessors_cons]
      cases hs : stepLookup obj st with
      | error e => rw [hs] at h; exact Bool.noConfusion h
      | ok o =>
          rw [hs] at h
          cases o with
          | some v => exact ih v h (fun x hx => hd x (List.mem_cons_of_mem _ hx))
          | none =>
              exact walk_all_miss fr rest d (fun x hx => hd x (List.mem_cons_of_mem _ hx))

/-! ### Claims about the accessor machinery -/

/-- Claim C9: deriving `p[k]` or `p.attr` from an existing path returns a new
path whose step sequence is the prefix's steps followed by the new step, the
prefix remaining an unchanged initial segment (structural sharing). -/
theorem claim9_path_derivation_append (p : ObjType) (k : PyKey) (a : String) :
    (p.getitem k).accessors = p.accessors ++ [Accessor.key k] ∧
    (p.getattrStep a).accessors = p.accessors ++ [Accessor.attr a] ∧
    (p.getitem k).accessors.take p.accessors.length = p.accessors ∧
    (p.getattrStep a).accessors.take p.accessors.length = p.accessors := by
  refine ⟨rfl, rfl, ?_, ?_⟩ <;>
    simp [ObjType.getitem, ObjType.getattrStep, List.take_left]

/-- Claim C10: a `TypeError` raised by a key step's subscript operation
propagates unmodified out of the walk and out of the whole call; it is not
converted to the missing sentinel and the default is not applied. -/
theorem claim10_type_error_propagates (fullRepr : String) (k : PyKey) (rest : List Accessor)
    (cur : PyVal) (d : Option PyVal) (m : String) (ts : List (PyVal → PyVal))
    (h : getItem cur k = .error (.typeError m)) :
    walkAccessors fullRepr (Accessor.key k :: rest) cur d = .error (.typeError m) ∧
    ObjType.call ⟨Accessor.key k :: rest, ts⟩ cur d = .error (.typeError m) := by
  have hstep : stepLookup cur (Accessor.key k) = .error (.typeError m) := by
    rw [stepLookup_key, h]
  have hwalk : ∀ fr : String,
      walkAccessors fr (Accessor.key k :: rest) cur d = .error (.typeError m) := by
    intro fr; rw [walkAccessors_cons, hstep]
  refine ⟨hwalk fullRepr, ?_⟩
  unfold ObjType.call
  rw [hwalk]

/-- Witness for C10 at a concrete non-subscriptable value. -/
theorem claim10_witness :
    walkAccessors "p" [Accessor.key (.str "x")] (.int 5) (some (.int 0)) =
      .error (.typeError ("\x27" ++ pyTypeName (.int 5) ++ "\x27 object is not subscriptable")) ∧
    ObjType.call ⟨[Accessor.key (.str "x")], []⟩ (.int 5) (some (.int 0)) =
      .error (.typeError ("\x27" ++ pyTypeName (.int 5) ++ "\x27 object is not subscriptable")) :=
  claim10_type_error_propagates "p" (.str "x") [] (.int 5) (some (.int 0)) _ [] rfl

/-- Claim C2 (amended): when a step's lookup comes up missing, the code does
not walk the rest on a sentinel; with a default it substitutes the default
immediately at the failing step and applies the remaining steps to it, and
without a default it raises the full-path `KeyError` immediately. -/
theorem claim2_default_substituted_at_failing_step (fullRepr : String) (step : Accessor)
    (rest : List Accessor) (cur d : PyVal)
    (h : stepLookup cur step = .ok Option.none) :
    walkAccessors fullRepr (step :: rest) cur (some d) =
      walkAccessors fullRepr rest d (some d) ∧
    walkAccessors fullRepr (step :: rest) cur Option.none = .error (.keyError fullRepr) := by
  constructor <;> rw [walkAccessors_cons, h]

/-- Witness for C2 at a concrete failing step and default. -/
theorem claim2_witness :
    walkAccessors "p" [Accessor.key (.str "a"), Accessor.key (.str "b")] (.dict [])
        (some (.dict [(PyKey.str "b", .int 42)])) =
      walkAccessors "p" [Accessor.key (.str "b")] (.dict [(PyKey.str "b", .int 42)])
        (some (.dict [(PyKey.str "b", .int 42)])) ∧
    walkAccessors "p" [Accessor.key (.str "a"), Accessor.key (.str "b")] (.dict [])
        Option.none = .error (.keyError "p") :=
  claim2_default_substituted_at_failing_step "p" _ _ _ _ rfl

/-- Counterexample to C2 as stated: with path `Obj["a"]["b"]`, object `{}`
and default `{"b": 42}`, the second step is applied against the substituted
default and the call returns `42`, not the default. -/
theorem claim2_counterexample :
    ObjType.call ⟨[Accessor.key (.str "a"), Accessor.key (.str "b")], []⟩ (.dict [])
        (some (.dict [(PyKey.str "b", .int 42)])) = .ok (.int 42) ∧
    PyVal.int 42 ≠ PyVal.dict [(PyKey.str "b", .int 42)] := by
  constructor
  · rfl
  · intro hcontra; exact PyVal.noConfusion hcontra

/-- Claim C3 (amended): when the no-default walk of the path against the
object reaches an absent step, resolving with no default raises a `KeyError`
(the `MissingPathError`) whose message is exactly the full original path's
deterministic textual form — and conversely any such error the resolution
raises carries exactly that text; resolving with a default returns that
default (passed through the path's post-transforms, if any) provided every
step of the path applied to the substituted default is itself absent
(treated as missing) rather than succeeding or raising — a later step that
succeeds against the default yields its own value instead, and a later step
that raises propagates its exception. -/
theorem claim3_missing_path_error (p : ObjType) (obj d : PyVal) (s : String) :
    (pathAbsent p.accessors obj = true →
      p.call obj Option.none = .error (.keyError p.reprStr)) ∧
    (p.call obj Option.none = .error (.keyError s) → s = p.reprStr) ∧
    (pathAbsent p.accessors obj = true →
      (∀ st ∈ p.accessors, stepLookup d st = .ok Option.none) →
      p.call obj (some d) = .ok (p.transforms.foldl (fun acc f => f acc) d)) := by
  refine ⟨?_, ?_, ?_⟩
  · intro h
    unfold ObjType.call
    rw [walk_of_pathAbsent p.reprStr p.accessors obj h]
  · intro h
    unfold ObjType.call at h
    cases hw : walkAccessors p.reprStr p.accessors obj Option.none with
    | error e =>
        rw [hw] at h
        cases e with
        | keyError m =>
            have hm : m = s := by simpa using h
            exact walk_keyError_names_path p.reprStr p.accessors Option.none s obj
              (by rw [hw, hm])
        | indexError m => simp at h
        | typeError m => simp at h
    | ok v => rw [hw] at h; simp at h
  · intro h hd
    unfold ObjType.call
    rw [walk_default_of_pathAbsent p.reprStr p.accessors d obj h hd]

/-- Witness for C3 at a concrete path, object and scalar default on which
the path's only step is absent. -/
theorem claim3_witness :
    ((ObjType.mk [Accessor.attr "a"] []).call (.int 5) Option.none =
      .error (.keyError (ObjType.mk [Accessor.attr "a"] []).reprStr)) ∧
    ((ObjType.mk [Accessor.attr "a"] []).call (.int 5) (some (.int 9)) = .ok (.int 9)) := by
  have h := claim3_missing_path_error ⟨[Accessor.attr "a"], []⟩ (.int 5) (.int 9) "Obj.a"
  have hd : ∀ st ∈ [Accessor.attr "a"], stepLookup (.int 9) st = .ok Option.none := by
    intro st hst
    have h2 : st = Accessor.attr "a" := by simpa using hst
    rw [h2, stepLookup_attr]
    rfl
  exact ⟨h.1 rfl, h.2.2 rfl hd⟩

/-- Counterexample to C3 as stated: with path `Obj["a"]["b"]`, object `{}`
and default `{"b": 7}`, resolution returns `7` (a later step applied to the
substituted default succeeded), not the supplied default. -/
theorem claim3_counterexample :
    ObjType.call ⟨[Accessor.key (.str "a"), Accessor.key (.str "b")], []⟩ (.dict [])
        (some (.dict [(PyKey.str "b", .int 7)])) = .ok (.int 7) ∧
    (Except.ok (PyVal.int 7) : Except PyErr PyVal) ≠
      .ok (.dict [(PyKey.str "b", .int 7)]) := by
  constructor
  · rfl
  · intro hcontra
    injection hcontra with h1
    exact PyVal.noConfusion h1

/-! ### Claims about TableField -/

/-- Claim C1 (amended): a literal header/footer is returned unchanged by the
reduce-and-format step, bypassing the value formatter; a reducer header/footer
is applied to the full list of extracted pre-format values and its result is
passed through the formatter exactly when a formatter is set and the reduced
value is not `None` (a `None` reduction, or an absent formatter, yields the
raw reduced value). -/
theorem claim1_literal_bypass_reducer_formatted (tf : TableField) (r : Renderable)
    (f : List PyVal → PyVal) (values : List PyVal) :
    tf.reduceAndFormat (.literal r) values = r ∧
    tf.getFooter values false "" = tf.reduceAndFormat tf.footer values ∧
    tf.getHeader values false "" = tf.reduceAndFormat tf.header values ∧
    tf.reduceAndFormat (.reducer f) values =
      (match tf.formatter with
       | some fmt => if isNotNone (f values) then fmt (f values) else .val (f values)
       | Option.none => .val (f values)) :=
  ⟨rfl, rfl, rfl, rfl⟩

/-- Counterexample to C1 as stated: a reducer footer yielding `None` next to
a set formatter is returned unformatted, not as the formatter's output. -/
theorem claim1_counterexample :
    C1tf.footer = HeaderVal.reducer C1red ∧ C1tf.formatter = some C1fmt ∧
    C1tf.getFooter [] false "" ≠ C1fmt (C1red []) := by
  refine ⟨rfl, rfl, ?_⟩
  intro hcontra
  have h : Renderable.val PyVal.none = Renderable.val (.str "X") := hcontra
  injection h with h1
  exact PyVal.noConfusion h1

/-- Claim C6 (amended): `formatValue` replaces a null value with the empty
string and then still applies the formatter (to that empty string); under the
default stringification formatter the result is the empty renderable, but the
formatter is involved. A non-null value gets the formatter applied directly
(or passes through unchanged when the formatter is absent). -/
theorem claim6_null_becomes_empty_then_formatted (tf : TableField) (v : PyVal) :
    tf.formatFieldValue v false "" =
      (match (match v with | .none => PyVal.str "" | x => x), tf.formatter with
       | w, some f => f w
       | w, Option.none => .val w) ∧
    TableField.formatFieldValue
      ⟨tf.header, tf.footer, tf.getter, tf.dflt, some strFormatter, tf.style,
        tf.header_style, tf.footer_style, tf.justify⟩ PyVal.none false "" = .val (.str "") := by
  constructor
  · cases v <;> cases htf : tf.formatter <;>
      simp [TableField.formatFieldValue, htf, isNotNone]
  · rfl

/-- Counterexample to C6 as stated: with a constant formatter, formatting a
null value returns the formatter's output on `""`, not the empty renderable —
the formatter is involved. -/
theorem claim6_counterexample :
    C6tf.formatFieldValue PyVal.none false "" = C6fmt (.str "") ∧
    C6tf.formatFieldValue PyVal.none false "" ≠ Renderable.val (.str "") := by
  constructor
  · rfl
  · intro hcontra
    have h : Renderable.val (.str "X") = Renderable.val (.str "") := hcontra
    injection h with h1
    injection h1 with h2
    exact absurd h2 (by decide)

/-! ### Claim about the styling memo -/

/-- Memo lookup survives appending entries on the right. -/
theorem lookupSeen_append_some {α : Type} [DecidableEq α] (xs ys : List (α × String)) (v : α)
    (s : String) (h : lookupSeen xs v = some s) : lookupSeen (xs ++ ys) v = some s := by
  induction xs with
  | nil => simp [lookupSeen] at h
  | cons p rest ih =>
      obtain ⟨k, s'⟩ := p
      by_cases hk : k = v
      · simp [lookupSeen, hk] at h ⊢; exact h
      · simp [lookupSeen, hk] at h ⊢; exact ih h

/-- A fresh entry appended on the right is found when absent on the left. -/
theorem lookupSeen_append_self {α : Type} [DecidableEq α] (xs : List (α × String)) (v : α)
    (s : String) (h : lookupSeen xs v = Option.none) :
    lookupSeen (xs ++ [(v, s)]) v = some s := by
  induction xs with
  | nil => simp [lookupSeen]
  | cons p rest ih =>
      obtain ⟨k, s'⟩ := p
      by_cases hk : k = v
      · simp [lookupSeen, hk] at h
      · simp [lookupSeen, hk] at h ⊢; exact ih h

/-- A memo hit returns the memoised style and leaves the state unchanged. -/
theorem styleByValueApply_hit {α : Type} [DecidableEq α] (st : StyleState α) (v : α)
    (s : String) (h : lookupSeen st.seen v = some s) : styleByValueApply st v = ((v, s), st) := by
  unfold styleByValueApply
  rw [h]

/-- After one application, the applied value is memoised with the style that
was just returned. -/
theorem styleByValueApply_lookup {α : Type} [DecidableEq α] (st : StyleState α) (v : α) :
    lookupSeen (styleByValueApply st v).2.seen v = some (styleByValueApply st v).1.2 := by
  unfold styleByValueApply
  cases h : lookupSeen st.seen v with
  | some s => exact h
  | none => exact lookupSeen_append_self _ _ _ h

/-- One application preserves existing memo entries. -/
theorem styleByValueApply_preserves {α : Type} [DecidableEq α] (st : StyleState α) (w v : α)
    (s : String) (h : lookupSeen st.seen v = some s) :
    lookupSeen (styleByValueApply st w).2.seen v = some s := by
  unfold styleByValueApply
  cases hw : lookupSeen st.seen w with
  | some x => exact h
  | none => exact lookupSeen_append_some _ _ _ _ h

/-- Any sequence of applications preserves existing memo entries. -/
theorem styleByValueMany_preserves {α : Type} [DecidableEq α] (ws : List α) :
    ∀ (st : StyleState α) (v : α) (s : String), lookupSeen st.seen v = some s →
    lookupSeen (styleByValueMany st ws).2.seen v = some s := by
  induction ws with
  | nil => intro st v s h; exact h
  | cons w ws ih =>
      intro st v s h
      exact ih _ v s (styleByValueApply_preserves st w v s h)

/-- The applied value is returned unchanged inside the styled wrapper. -/
theorem styleByValueApply_fst {α : Type} [DecidableEq α] (st : StyleState α) (v : α) :
    (styleByValueApply st v).1.1 = v := by
  unfold styleByValueApply
  cases lookupSeen st.seen v <;> rfl

/-- Claim C8: the first application of a `style_by_value` instance to a value
not in the memo assigns it the generator's next style (and records it); every
later application to an equal value — across any interleaved applications to
other values — returns exactly the first-assigned styled result. -/
theorem claim8_style_by_value_memo {α : Type} [DecidableEq α] (st : StyleState α) (v : α)
    (ws : List α) :
    (lookupSeen st.seen v = Option.none →
      styleByValueApply st v = ((v, st.gen st.idx),
        ⟨st.seen ++ [(v, st.gen st.idx)], st.gen, st.idx + 1⟩)) ∧
    (styleByValueApply (styleByValueMany (styleByValueApply st v).2 ws).2 v).1 =
      (styleByValueApply st v).1 ∧
    (styleByValueApply st v).1.1 = v := by
  refine ⟨?_, ?_, styleByValueApply_fst st v⟩
  · intro h
    unfold styleByValueApply
    rw [h]
  · have h1 := styleByValueApply_lookup st v
    have h2 := styleByValueMany_preserves ws _ v _ h1
    rw [styleByValueApply_hit _ _ _ h2]
    exact Prod.ext (styleByValueApply_fst st v).symm rfl

/-- Witness for C8: a fresh instance applied to `3`, then to `4, 3, 5`,
returns for `3` the same styled result as the first application. -/
theorem claim8_witness :
    (styleByValueApply C8st 3 = ((3, C8gen 0), ⟨[(3, C8gen 0)], C8gen, 1⟩)) ∧
    (styleByValueApply (styleByValueMany (styleByValueApply C8st 3).2 [4, 3, 5]).2 3).1 =
      (styleByValueApply C8st 3).1 ∧
    (styleByValueApply C8st 3).1.1 = 3 := by
  have h := claim8_style_by_value_memo C8st 3 [4, 3, 5]
  exact ⟨h.1 rfl, h.2.1, h.2.2⟩

/-! ### Lemmas about `mapExcept` and the build pipeline -/

/-- Bind on a successful `Except` computation. -/
theorem exceptBind_ok {β γ : Type} (b : β) (f : β → Except PyErr γ) :
    ((Except.ok b : Except PyErr β) >>= f) = f b := rfl

/-- Bind on a failed `Except` computation. -/
theorem exceptBind_error {β γ : Type} (e : PyErr) (f : β → Except PyErr γ) :
    ((Except.error e : Except PyErr β) >>= f) = .error e := rfl

/-- Equation lemma for `mapExcept` on the empty list. -/
theorem mapExcept_nil {α β : Type} (f : α → Except PyErr β) : mapExcept f [] = .ok [] := rfl

/-- Equation lemma for `mapExcept` on a cons. -/
theorem mapExcept_cons {α β : Type} (f : α → Except PyErr β) (a : α) (l : List α) :
    mapExcept f (a :: l) =
      (f a >>= fun b => mapExcept f l >>= fun bs => pure (b :: bs)) := rfl

/-- Lemma: `mapExcept` succeeds exactly when `f` succeeds pointwise, in order. -/
theorem mapExcept_ok_iff {α β : Type} (f : α → Except PyErr β) (l : List α) :
    ∀ l' : List β, mapExcept f l = .ok l' ↔
      List.Forall₂ (fun a b => f a = .ok b) l l' := by
  induction l with
  | nil =>
      intro l'
      rw [mapExcept_nil]
      constructor
      · intro h
        injection h with h
        subst h
        exact List.Forall₂.nil
      · intro h; cases h; rfl
  | cons a rest ih =>
      intro l'
      rw [mapExcept_cons]
      constructor
      · intro h
        cases hf : f a with
        | error e => rw [hf, exceptBind_error] at h; exact Except.noConfusion h
        | ok b =>
            rw [hf, exceptBind_ok] at h
            cases hr : mapExcept f rest with
            | error e => rw [hr, exceptBind_error] at h; exact Except.noConfusion h
            | ok bs =>
                rw [hr, exceptBind_ok] at h
                have h2 : (Except.ok (b :: bs) : Except PyErr (List β)) = .ok l' := h
                cases h2
                exact List.Forall₂.cons hf ((ih bs).mp hr)
      · intro h
        cases h with
        | cons hab hrest =>
            rename_i b bs
            rw [hab, exceptBind_ok, (ih bs).mpr hrest, exceptBind_ok]
            rfl

/-- A failed `mapExcept` pinpoints a failing element. -/
theorem mapExcept_error {α β : Type} (f : α → Except PyErr β) (l : List α) (e : PyErr) :
    mapExcept f l = .error e → ∃ a ∈ l, f a = .error e := by
  induction l with
  | nil => intro h; rw [mapExcept_nil] at h; exact Except.noConfusion h
  | cons a rest ih =>
      intro h
      rw [mapExcept_cons] at h
      cases hf : f a with
      | error e' =>
          rw [hf, exceptBind_error] at h
          have he : e' = e := by
            have h2 : (Except.error e' : Except PyErr (List β)) = .error e := h
            injection h2
          exact ⟨a, List.mem_cons_self a rest, he ▸ hf⟩
      | ok b =>
          rw [hf, exceptBind_ok] at h
          cases hr : mapExcept f rest with
          | error e' =>
              rw [hr, exceptBind_error] at h
              have he : e' = e := by
                have h2 : (Except.error e' : Except PyErr (List β)) = .error e := h
                injection h2
              obtain ⟨x, hx, hfx⟩ := ih (he ▸ hr)
              exact ⟨x, List.mem_cons_of_mem _ hx, hfx⟩
          | ok bs => rw [hr, exceptBind_ok] at h; exact Except.noConfusion h

/-- Characterisation of a successful `_build_field_content`. -/
theorem buildFieldContent_ok_iff (tf : TableField) (items : List PyVal) (kw : TableOptions)
    (b : Bool) (c : TableFieldContent) :
    buildFieldContent tf items kw b = .ok c ↔
      ∃ vals, mapExcept tf.getFieldValue items = .ok vals ∧
        c = ⟨tf.getHeader vals b (kw.header_style.getD ""),
             vals.map (fun v => tf.formatFieldValue v b (kw.style.getD "")),
             tf.getFooter vals b (kw.footer_style.getD "")⟩ := by
  unfold buildFieldContent
  cases hv : mapExcept tf.getFieldValue items with
  | error e =>
      rw [exceptBind_error]
      constructor
      · intro h; exact Except.noConfusion h
      · rintro ⟨vals, hvals, _⟩; exact Except.noConfusion hvals
  | ok vals =>
      rw [exceptBind_ok]
      constructor
      · intro h
        have h2 : (Except.ok _ : Except PyErr TableFieldContent) = .ok c := h
        cases h2
        exact ⟨vals, rfl, rfl⟩
      · rintro ⟨vals', hvals', rfl⟩
        cases hvals'
        rfl

/-- A successful `_build_field_content` extracts one value per record. -/
theorem buildFieldContent_values_length (tf : TableField) (items : List PyVal)
    (kw : TableOptions) (b : Bool) (c : TableFieldContent)
    (h : buildFieldContent tf items kw b = .ok c) : c.values.length = items.length := by
  rw [buildFieldContent_ok_iff] at h
  obtain ⟨vals, hv, rfl⟩ := h
  simpa using (List.Forall₂.length_eq ((mapExcept_ok_iff _ _ _).mp hv)).symm

/-- A failed `_build_field_content` pinpoints a record whose extraction
failed (with the getter called on the field's default). -/
theorem buildFieldContent_error (tf : TableField) (items : List PyVal) (kw : TableOptions)
    (b : Bool) (e : PyErr) (h : buildFieldContent tf items kw b = .error e) :
    ∃ item ∈ items, tf.getFieldValue item = .error e := by
  unfold buildFieldContent at h
  cases hv : mapExcept tf.getFieldValue items with
  | error e' =>
      rw [hv, exceptBind_error] at h
      have he : e' = e := by
        have h2 : (Except.error e' : Except PyErr TableFieldContent) = .error e := h
        injection h2
      exact mapExcept_error _ _ _ (he ▸ hv)
  | ok vals =>
      rw [hv, exceptBind_ok] at h
      exact Except.noConfusion h

/-- A failing `_get_field_value` is a failing getter call. -/
theorem getFieldValue_error (tf : TableField) (item : PyVal) (e : PyErr)
    (h : tf.getFieldValue item = .error e) : tf.getter item (some tf.dflt) = .error e := by
  unfold TableField.getFieldValue at h
  cases hg : tf.getter item (some tf.dflt) with
  | error e' =>
      rw [hg] at h
      have he : e' = e := by
        have h2 : (Except.error e' : Except PyErr PyVal) = .error e := h
        injection h2
      rw [he]
  | ok v =>
      rw [hg] at h
      cases v <;> exact Except.noConfusion h

/-- Any error escaping the accessor walk is the full-path `KeyError` or a
subscripting `TypeError`. -/
theorem walk_error_shape (fr : String) (steps : List Accessor) (dflt : Option PyVal)
    (e : PyErr) : ∀ cur : PyVal, walkAccessors fr steps cur dflt = .error e →
    e = .keyError fr ∨ ∃ m, e = .typeError m ∧ subscriptTypeMsg m := by
  induction steps with
  | nil => intro cur h; rw [walkAccessors_nil] at h; exact Except.noConfusion h
  | cons st rest ih =>
      intro cur h
      rw [walkAccessors_cons] at h
      cases hs : stepLookup cur st with
      | error e2 =>
          rw [hs] at h
          obtain ⟨m, hm, hsub⟩ := stepLookup_error_msg _ _ _ hs
          have he : e2 = e := by
            have h2 : (Except.error e2 : Except PyErr PyVal) = .error e := h
            injection h2
          exact Or.inr ⟨m, by rw [← he, hm], hsub⟩
      | ok o =>
          rw [hs] at h
          cases o with
          | some v => exact ih v h
          | none =>
              cases dflt with
              | none =>
                  have h2 : (Except.error (PyErr.keyError fr) : Except PyErr PyVal) =
                    .error e := h
                  exact Or.inl (by injection h2 with h3; exact h3.symm)
              | some d => exact ih d h

/-- Any error of a path-based call is a full-path `KeyError` or a
subscripting `TypeError`. -/
theorem call_error_shape (q : ObjType) (obj : PyVal) (dflt : Option PyVal) (e : PyErr)
    (h : q.call obj dflt = .error e) :
    e = .keyError q.reprStr ∨ ∃ m, e = .typeError m ∧ subscriptTypeMsg m := by
  unfold ObjType.call at h
  cases hw : walkAccessors q.reprStr q.accessors obj dflt with
  | error e' =>
      rw [hw] at h
      have he : e' = e := by
        have h2 : (Except.error e' : Except PyErr PyVal) = .error e := h
        injection h2
      exact walk_error_shape q.reprStr q.accessors dflt e obj (he ▸ hw)
  | ok v => rw [hw] at h; exact Except.noConfusion h

/-- The head character of an append is the head of a nonempty left part. -/
theorem data_head_append (a b : String) (c : Char) (ha : a.data.head? = some c) :
    (a ++ b).data.head? = some c := by
  have hne : a.data ≠ [] := by
    intro hnil
    rw [hnil] at ha
    exact Option.noConfusion ha
  rw [String.data_append, List.head?_append_of_ne_nil _ hne, ha]

/-- The invalid-key error message always starts with `I`. -/
theorem invalidKeyMsg_head (t : String) : (invalidKeyMsg t).data.head? = some 'I' := by
  unfold invalidKeyMsg
  exact data_head_append _ _ _ (data_head_append _ _ _ (by decide))

/-- No subscripting `TypeError` message is an invalid-key-type message. -/
theorem subscript_not_invalid (m t : String) (hm : subscriptTypeMsg m) :
    m ≠ invalidKeyMsg t := by
  intro he
  have hI := invalidKeyMsg_head t
  rw [← he] at hI
  rcases hm with ⟨u, rfl⟩ | rfl | rfl
  · rw [data_head_append _ _ '\x27' (data_head_append _ _ _ (by decide))] at hI
    exact absurd hI (by decide)
  · rw [show ("list indices must be integers or slices, not str" : String).data.head? =
      some 'l' from by decide] at hI
    exact absurd hI (by decide)
  · rw [show ("string indices must be integers" : String).data.head? = some 's' from
      by decide] at hI
    exact absurd hI (by decide)

/-- A successful extraction yields the assembled normal table. -/
theorem buildTableNormalCore_ok (fields : List TableField) (items : List PyVal)
    (markers : List Marker) (kw : TableOptions) (contents : List TableFieldContent)
    (hc : mapExcept (fun tf => buildFieldContent tf items kw false) fields = .ok contents) :
    buildTableNormalCore fields items markers kw =
      .ok (normalAssemble fields contents markers items.length kw) := by
  unfold buildTableNormalCore
  rw [hc, exceptBind_ok]
  rfl

/-- A failed extraction propagates out of the normal core build. -/
theorem buildTableNormalCore_err (fields : List TableField) (items : List PyVal)
    (markers : List Marker) (kw : TableOptions) (e : PyErr)
    (hc : mapExcept (fun tf => buildFieldContent tf items kw false) fields = .error e) :
    buildTableNormalCore fields items markers kw = .error e := by
  unfold buildTableNormalCore
  rw [hc, exceptBind_error]

/-- Any error of the normal build is a failing extraction of some field at
some record. -/
theorem buildTableNormal_error (B : TableBuilderSpec) (items : List PyVal)
    (kw : TableOptions) (e : PyErr) (h : buildTableNormal B items kw = .error e) :
    ∃ tf ∈ B.fields, ∃ item, tf.getFieldValue item = .error e := by
  obtain ⟨flds, sby⟩ := B
  have core : ∀ (items2 : List PyVal) (markers : List Marker),
      buildTableNormalCore flds items2 markers kw = .error e →
      ∃ tf ∈ flds, ∃ item, tf.getFieldValue item = .error e := by
    intro items2 markers hcore
    cases hc : mapExcept (fun tf => buildFieldContent tf items2 kw false) flds with
    | error e' =>
        rw [buildTableNormalCore_err _ _ _ _ _ hc] at hcore
        have he : e' = e := by
          have h2 : (Except.error e' : Except PyErr RTable) = .error e := hcore
          injection h2
        obtain ⟨tf, htf, herr⟩ := mapExcept_error _ _ _ (he ▸ hc)
        obtain ⟨item, _, hval⟩ := buildFieldContent_error _ _ _ _ _ herr
        exact ⟨tf, htf, item, hval⟩
    | ok contents =>
        rw [buildTableNormalCore_ok _ _ _ _ _ hc] at hcore
        exact Except.noConfusion hcore
  cases sby with
  | none => exact core _ _ h
  | some f => exact core _ _ h

/-- Any error of the transposed build is a failing extraction of some field
at some record. -/
theorem buildTableTransposed_error (B : TableBuilderSpec) (values : List PyVal)
    (kw : TableOptions) (e : PyErr) (h : buildTableTransposed B values kw = .error e) :
    ∃ tf ∈ B.fields, ∃ item, tf.getFieldValue item = .error e := by
  unfold buildTableTransposed at h
  cases hr : mapExcept (fun tf => transposedRow tf values (transposedOptions kw)
      (kw.show_header.getD true) (kw.show_footer.getD false)) B.fields with
  | error e' =>
      rw [hr, exceptBind_error] at h
      have he : e' = e := by
        have h2 : (Except.error e' : Except PyErr RTable) = .error e := h
        injection h2
      obtain ⟨tf, htf, herr⟩ := mapExcept_error _ _ _ (he ▸ hr)
      unfold transposedRow at herr
      cases hb : buildFieldContent tf values (transposedOptions kw) true with
      | error e2 =>
          rw [hb, exceptBind_error] at herr
          have he2 : e2 = e := by
            have h2 : (Except.error e2 : Except PyErr (List Renderable)) = .error e := herr
            injection h2
          obtain ⟨item, _, hval⟩ := buildFieldContent_error _ _ _ _ _ (he2 ▸ hb)
          exact ⟨tf, htf, item, hval⟩
      | ok c =>
          rw [hb, exceptBind_ok] at herr
          exact Except.noConfusion herr
  | ok rows => rw [hr, exceptBind_ok] at h; exact Except.noConfusion h

/-- Claim C7: a key specification that is neither null, callable nor a string
is rejected with the invalid-key `TypeError` at field-declaration time, while
null, callable (function or path) and string keys all declare successfully
with the corresponding getter; and a build over fields whose getters are
accessor-path calls can never produce the invalid-key error — that error is
raised at declaration time only. -/
theorem claim7_invalid_key_type (header footer : HeaderVal) (dflt : PyVal)
    (fmt : Option Formatter) (style hstyle fstyle justify : String) (v : PyVal) (g : Getter)
    (p : ObjType) (s : String) (B : TableBuilderSpec) (items : List PyVal)
    (kw : TableOptions) (e : PyErr) (t : String) :
    mkTableField header footer (.other v) dflt fmt style hstyle fstyle justify =
      .error (.typeError (invalidKeyMsg (pyTypeName v))) ∧
    mkTableField header footer .pyNone dflt fmt style hstyle fstyle justify =
      .ok ⟨header, footer, Obj.call, dflt, fmt, style, hstyle, fstyle, justify⟩ ∧
    mkTableField header footer (.fn g) dflt fmt style hstyle fstyle justify =
      .ok ⟨header, footer, g, dflt, fmt, style, hstyle, fstyle, justify⟩ ∧
    mkTableField header footer (.path p) dflt fmt style hstyle fstyle justify =
      .ok ⟨header, footer, p.call, dflt, fmt, style, hstyle, fstyle, justify⟩ ∧
    mkTableField header footer (.str s) dflt fmt style hstyle fstyle justify =
      .ok ⟨header, footer, (Obj.getitem (.str s)).call, dflt, fmt, style, hstyle, fstyle,
        justify⟩ ∧
    ((∀ tf ∈ B.fields, ∃ q : ObjType, tf.getter = q.call) →
      buildTableNormal B items kw = .error e → e ≠ .typeError (invalidKeyMsg t)) ∧
    ((∀ tf ∈ B.fields, ∃ q : ObjType, tf.getter = q.call) →
      buildTableTransposed B items kw = .error e → e ≠ .typeError (invalidKeyMsg t)) := by
  have never : (∃ tf ∈ B.fields, ∃ item, tf.getFieldValue item = .error e) →
      (∀ tf ∈ B.fields, ∃ q : ObjType, tf.getter = q.call) →
      e ≠ .typeError (invalidKeyMsg t) := by
    rintro ⟨tf, htf, item, hval⟩ hB hcontra
    obtain ⟨q, hq⟩ := hB tf htf
    have hcall : q.call item (some tf.dflt) = .error e := by
      rw [← hq]
      exact getFieldValue_error _ _ _ hval
    rcases call_error_shape q item (some tf.dflt) e hcall with hk | ⟨m, hme, hsub⟩
    · rw [hcontra] at hk
      exact PyErr.noConfusion hk
    · rw [hcontra] at hme
      have hm : m = invalidKeyMsg t := by injection hme with h2; exact h2.symm
      exact subscript_not_invalid m t hsub hm
  refine ⟨rfl, rfl, rfl, rfl, rfl, ?_, ?_⟩
  · intro hB hbuild
    exact never (buildTableNormal_error B items kw e hbuild) hB
  · intro hB hbuild
    exact never (buildTableTransposed_error B items kw e hbuild) hB

/-- Witness for C7 at concrete declarations and a concrete failing build. -/
theorem claim7_witness :
    mkTableField (.literal (.val (.str "H"))) (.literal (.val (.str "F"))) (.other (.int 42))
      PyVal.none (some strFormatter) "" "" "" "left" =
      .error (.typeError (invalidKeyMsg (pyTypeName (.int 42)))) ∧
    mkTableField (.literal (.val (.str "H"))) (.literal (.val (.str "F"))) .pyNone
      PyVal.none (some strFormatter) "" "" "" "left" =
      .ok ⟨.literal (.val (.str "H")), .literal (.val (.str "F")), Obj.call, PyVal.none,
        some strFormatter, "", "", "", "left"⟩ ∧
    mkTableField (.literal (.val (.str "H"))) (.literal (.val (.str "F"))) (.str "name")
      PyVal.none (some strFormatter) "" "" "" "left" =
      .ok ⟨.literal (.val (.str "H")), .literal (.val (.str "F")),
        (Obj.getitem (.str "name")).call, PyVal.none, some strFormatter, "", "", "", "left"⟩ ∧
    C7err ≠ .typeError (invalidKeyMsg "int") := by
  have h := claim7_invalid_key_type (.literal (.val (.str "H"))) (.literal (.val (.str "F")))
    PyVal.none (some strFormatter) "" "" "" "left" (.int 42) Obj.call Obj "name"
    C5builderNone [.int 5] kwEmpty C7err "int"
  refine ⟨h.1, h.2.1, h.2.2.2.2.1, ?_⟩
  refine h.2.2.2.2.2.1 ?_ rfl
  intro tf htf
  have : tf = tfNameW := by simpa [C5builderNone] using htf
  exact ⟨Obj.getitem (.str "name"), by rw [this]; rfl⟩

/-! ### Claim C4: shape of the transposed build -/

/-- Folding `add_row` appends the rows in order and changes nothing else. -/
theorem foldl_addRow (rows : List (List Renderable)) : ∀ t : RTable,
    rows.foldl (fun t r => t.addRow r) t =
      ⟨t.columns, t.options, t.rows ++ rows, t.sectionBreaksBefore⟩ := by
  induction rows with
  | nil => intro t; cases t; simp
  | cons r rest ih =>
      intro t
      rw [List.foldl_cons, ih]
      cases t
      simp [RTable.addRow]

/-- Characterisation of one successful transposed row. -/
theorem transposedRow_ok_iff (tf : TableField) (values : List PyVal) (kwT : TableOptions)
    (sh sf : Bool) (row : List Renderable) :
    transposedRow tf values kwT sh sf = .ok row ↔
      ∃ c, buildFieldContent tf values kwT true = .ok c ∧
        row = (if sh then [c.header.orEmpty] else []) ++ c.values ++
          (if sf then [c.footer.orEmpty] else []) := by
  unfold transposedRow
  cases hb : buildFieldContent tf values kwT true with
  | error e =>
      rw [exceptBind_error]
      constructor
      · intro h; exact Except.noConfusion h
      · rintro ⟨c, hc, _⟩; exact Except.noConfusion hc
  | ok c =>
      rw [exceptBind_ok]
      constructor
      · intro h
        have h2 : (Except.ok _ : Except PyErr (List Renderable)) = .ok row := h
        cases h2
        exact ⟨c, rfl, rfl⟩
      · rintro ⟨c', hc', rfl⟩
        cases hc'
        rfl

/-- A successful transposed build is the base table plus the field rows. -/
theorem buildTableTransposed_ok (B : TableBuilderSpec) (values : List PyVal)
    (kw : TableOptions) (rows : List (List Renderable))
    (hr : mapExcept (fun tf => transposedRow tf values (transposedOptions kw)
        (kw.show_header.getD true) (kw.show_footer.getD false)) B.fields = .ok rows) :
    buildTableTransposed B values kw =
      .ok ⟨transposedColumns values.length (kw.show_header.getD true)
            (kw.show_footer.getD false),
           transposedOptions kw, rows, []⟩ := by
  unfold buildTableTransposed
  rw [hr, exceptBind_ok, foldl_addRow]
  rfl

/-- A failed row extraction propagates out of the transposed build. -/
theorem buildTableTransposed_err (B : TableBuilderSpec) (values : List PyVal)
    (kw : TableOptions) (e : PyErr)
    (hr : mapExcept (fun tf => transposedRow tf values (transposedOptions kw)
        (kw.show_header.getD true) (kw.show_footer.getD false)) B.fields = .error e) :
    buildTableTransposed B values kw = .error e := by
  unfold buildTableTransposed
  rw [hr, exceptBind_error]

/-- Claim C4: the transposed build emits one render row per declared field in
declaration order, each row holding one cell per record plus a leading header
cell iff show-header is set and a trailing footer cell iff show-footer is set;
the column count matches, and the options handed to the rendering collaborator
have both show-header and show-footer forced off. -/
theorem claim4_transposed_shape (B : TableBuilderSpec) (values : List PyVal)
    (kw : TableOptions) (t : RTable) (h : buildTableTransposed B values kw = .ok t) :
    t.options.show_header = some false ∧
    t.options.show_footer = some false ∧
    t.rows.length = B.fields.length ∧
    t.columns.length = values.length + (if kw.show_header.getD true then 1 else 0) +
      (if kw.show_footer.getD false then 1 else 0) ∧
    List.Forall₂ (fun tf row => ∃ c,
        buildFieldContent tf values (transposedOptions kw) true = .ok c ∧
        c.values.length = values.length ∧
        row = (if kw.show_header.getD true then [c.header.orEmpty] else []) ++ c.values ++
          (if kw.show_footer.getD false then [c.footer.orEmpty] else []))
      B.fields t.rows ∧
    (∀ row ∈ t.rows,
      row.length = values.length + (if kw.show_header.getD true then 1 else 0) +
        (if kw.show_footer.getD false then 1 else 0)) := by
  cases hr : mapExcept (fun tf => transposedRow tf values (transposedOptions kw)
      (kw.show_header.getD true) (kw.show_footer.getD false)) B.fields with
  | error e =>
      rw [buildTableTransposed_err B values kw e hr] at h
      exact Except.noConfusion h
  | ok rows =>
      have hb := buildTableTransposed_ok B values kw rows hr
      rw [h] at hb
      have ht : t = ⟨transposedColumns values.length (kw.show_header.getD true)
          (kw.show_footer.getD false), transposedOptions kw, rows, []⟩ := by
        injection hb with h2
      subst ht
      have hf2 := (mapExcept_ok_iff _ _ rows).mp hr
      have hforall : List.Forall₂ (fun tf row => ∃ c,
          buildFieldContent tf values (transposedOptions kw) true = .ok c ∧
          c.values.length = values.length ∧
          row = (if kw.show_header.getD true then [c.header.orEmpty] else []) ++ c.values ++
            (if kw.show_footer.getD false then [c.footer.orEmpty] else []))
          B.fields rows := by
        refine List.Forall₂.imp ?_ hf2
        intro tf row hrow
        obtain ⟨c, hc, hr2⟩ := (transposedRow_ok_iff _ _ _ _ _ _).mp hrow
        exact ⟨c, hc, buildFieldContent_values_length _ _ _ _ _ hc, hr2⟩
      refine ⟨rfl, rfl, (List.Forall₂.length_eq hf2).symm, ?_, hforall, ?_⟩
      · simp [transposedColumns]
      · intro row hrowmem
        obtain ⟨⟨iv, hiv⟩, hi⟩ := List.mem_iff_get.mp hrowmem
        have hiv2 : iv < rows.length := hiv
        have hi2 : rows.get ⟨iv, hiv2⟩ = row := hi
        have hS := hf2.get
          (show iv < B.fields.length by rw [List.Forall₂.length_eq hf2]; exact hiv2) hiv2
        rw [hi2] at hS
        obtain ⟨c, hc, hr2⟩ := (transposedRow_ok_iff _ _ _ _ _ _).mp hS
        have hlen := buildFieldContent_values_length _ _ _ _ _ hc
        rw [hr2]
        cases kw.show_header.getD true <;> cases kw.show_footer.getD false <;>
          simp [hlen]

/-- Witness for C4 at a concrete two-field builder and two records. -/
theorem claim4_witness :
    C4table.options.show_header = some false ∧
    C4table.options.show_footer = some false ∧
    C4table.rows.length = C4builder.fields.length ∧
    C4table.columns.length = C4records.length +
      (if kwEmpty.show_header.getD true then 1 else 0) +
      (if kwEmpty.show_footer.getD false then 1 else 0) ∧
    List.Forall₂ (fun tf row => ∃ c,
        buildFieldContent tf C4records (transposedOptions kwEmpty) true = .ok c ∧
        c.values.length = C4records.length ∧
        row = (if kwEmpty.show_header.getD true then [c.header.orEmpty] else []) ++ c.values ++
          (if kwEmpty.show_footer.getD false then [c.footer.orEmpty] else []))
      C4builder.fields C4table.rows ∧
    (∀ row ∈ C4table.rows,
      row.length = C4records.length + (if kwEmpty.show_header.getD true then 1 else 0) +
        (if kwEmpty.show_footer.getD false then 1 else 0)) :=
  claim4_transposed_shape C4builder C4records kwEmpty C4table rfl

/-! ### Claim C5: normal-mode row order and sectioning -/

/-- Equation lemma: the empty row loop. -/
theorem addRowsLoop_nil (t : RTable) (cur : Marker) : addRowsLoop t cur [] = t := rfl

/-- Equation lemma: one iteration of the row loop. -/
theorem addRowsLoop_cons (t : RTable) (cur m : Marker) (r : List Renderable)
    (rest : List (Marker × List Renderable)) :
    addRowsLoop t cur ((m, r) :: rest) =
      if m ≠ cur then addRowsLoop ((t.addSection).addRow r) m rest
      else addRowsLoop (t.addRow r) cur rest := rfl

/-- The row loop appends the rows in order and records exactly the break
offsets computed by `breaksList` from the marker sequence. -/
theorem addRowsLoop_spec (pairs : List (Marker × List Renderable)) :
    ∀ (t : RTable) (cur : Marker),
    addRowsLoop t cur pairs =
      ⟨t.columns, t.options, t.rows ++ pairs.map Prod.snd,
       t.sectionBreaksBefore ++ breaksList t.rows.length cur (pairs.map Prod.fst)⟩ := by
  induction pairs with
  | nil =>
      intro t cur
      rw [addRowsLoop_nil]
      cases t
      simp [breaksList]
  | cons p rest ih =>
      intro t cur
      obtain ⟨m, r⟩ := p
      rw [addRowsLoop_cons]
      by_cases hm : m = cur
      · subst hm
        rw [if_neg (by simp)]
        rw [ih]
        cases t
        simp [RTable.addRow, breaksList]
      · rw [if_pos hm]
        rw [ih]
        cases t
        simp [RTable.addRow, RTable.addSection, breaksList, hm]

/-- Membership in `breaksList`: a break at `off + j` exactly when the `j`-th
marker differs from its predecessor (the running marker for `j = 0`). -/
theorem mem_breaksList (ms : List Marker) : ∀ (off : Nat) (cur : Marker) (i : Nat),
    i ∈ breaksList off cur ms ↔
      ∃ j, j < ms.length ∧ i = off + j ∧
        ms.getD j Marker.tt ≠ (cur :: ms).getD j Marker.tt := by
  induction ms with
  | nil => intro off cur i; simp [breaksList]
  | cons m ms ih =>
      intro off cur i
      rw [show breaksList off cur (m :: ms) =
        (if m ≠ cur then [off] else []) ++ breaksList (off + 1) m ms from rfl]
      rw [List.mem_append]
      constructor
      · intro h
        rcases h with h1 | h2
        · by_cases hm : m = cur
          · rw [if_neg (by simp [hm])] at h1
            simp at h1
          · rw [if_pos hm] at h1
            have : i = off := by simpa using h1
            exact ⟨0, by simp, by omega, by simpa using hm⟩
        · obtain ⟨j, hj, hij, hne⟩ := (ih (off + 1) m i).mp h2
          exact ⟨j + 1, by simpa using hj, by omega, by simpa using hne⟩
      · rintro ⟨j, hj, rfl, hne⟩
        cases j with
        | zero =>
            left
            have hm : m ≠ cur := by simpa using hne
            rw [if_pos hm]
            simp
        | succ j =>
            right
            refine (ih (off + 1) m (off + (j + 1))).mpr
              ⟨j, by simpa using hj, by omega, by simpa using hne⟩

/-- Every break offset is at least the starting offset. -/
theorem breaksList_mem_ge (ms : List Marker) : ∀ (off : Nat) (cur : Marker) (x : Nat),
    x ∈ breaksList off cur ms → off ≤ x := by
  intro off cur x hx
  obtain ⟨j, _, rfl, _⟩ := (mem_breaksList ms off cur x).mp hx
  omega

/-- The break offsets are distinct. -/
theorem breaksList_nodup (ms : List Marker) : ∀ (off : Nat) (cur : Marker),
    (breaksList off cur ms).Nodup := by
  induction ms with
  | nil => intro off cur; exact List.nodup_nil
  | cons m ms ih =>
      intro off cur
      rw [show breaksList off cur (m :: ms) =
        (if m ≠ cur then [off] else []) ++ breaksList (off + 1) m ms from rfl]
      by_cases hm : m = cur
      · rw [if_neg (by simp [hm]), List.nil_append]
        exact ih _ _
      · rw [if_pos hm, List.singleton_append]
        refine List.nodup_cons.mpr ⟨?_, ih _ _⟩
        intro hx
        have := breaksList_mem_ge ms (off + 1) m off hx
        omega

/-- With all markers equal to the running marker, no break is recorded. -/
theorem breaksList_const (ms : List Marker) : ∀ (off : Nat) (cur : Marker),
    (∀ m ∈ ms, m = cur) → breaksList off cur ms = [] := by
  induction ms with
  | nil => intro off cur _; rfl
  | cons m ms ih =>
      intro off cur hall
      have hm : m = cur := hall m (List.mem_cons_self m ms)
      rw [show breaksList off cur (m :: ms) =
        (if m ≠ cur then [off] else []) ++ breaksList (off + 1) m ms from rfl]
      rw [if_neg (by simp [hm]), List.nil_append, hm]
      exact ih _ _ (fun x hx => hall x (List.mem_cons_of_mem _ hx))

/-- The all-`True` marker list of a sectionless build records no break. -/
theorem breaksList_const_tt (items : List PyVal) :
    breaksList 0 ((items.map (fun _ => Marker.tt)).headD Marker.tt)
      (items.map (fun _ => Marker.tt)) = [] := by
  apply breaksList_const
  intro m hm
  obtain ⟨x, _, hx⟩ := List.mem_map.mp hm
  cases items with
  | nil => exact absurd hm (by simp)
  | cons a l => simpa using hx.symm

/-- The row-major view has one row per record index. -/
theorem rowsFromContents_length (contents : List TableFieldContent) (n : Nat) :
    (rowsFromContents contents n).length = n := by
  simp [rowsFromContents]

/-- Row `i` of the row-major view collects each field's `i`-th value. -/
theorem rowsFromContents_get (contents : List TableFieldContent) (n i : Nat) (_hi : i < n)
    (hi2 : i < (rowsFromContents contents n).length) :
    (rowsFromContents contents n).get ⟨i, hi2⟩ =
      contents.map (fun c => c.values.getD i (.val (.str ""))) := by
  simp [rowsFromContents]

/-- Rows of the normal build, matched to the records in order: row `i` is
each field's formatted value extracted from record `i`. -/
theorem rows_forall₂ (fields : List TableField) (contents : List TableFieldContent)
    (items : List PyVal) (kw : TableOptions)
    (hc : mapExcept (fun tf => buildFieldContent tf items kw false) fields = .ok contents) :
    List.Forall₂ (fun item row => expectedRow fields kw item = .ok row) items
      (rowsFromContents contents items.length) := by
  rw [List.forall₂_iff_get]
  refine ⟨by simp [rowsFromContents], ?_⟩
  intro i h1 h2
  rw [rowsFromContents_get contents items.length i h1 h2]
  rw [show expectedRow fields kw (items.get ⟨i, h1⟩) =
    mapExcept (fun tf => (tf.getFieldValue (items.get ⟨i, h1⟩)).map
      (fun v => tf.formatFieldValue v false (kw.style.getD ""))) fields from rfl]
  rw [mapExcept_ok_iff, List.forall₂_map_right_iff]
  refine List.Forall₂.imp ?_ ((mapExcept_ok_iff _ _ _).mp hc)
  intro tf c hbc
  rw [buildFieldContent_ok_iff] at hbc
  obtain ⟨vals, hvals, rfl⟩ := hbc
  have hf := (mapExcept_ok_iff _ _ _).mp hvals
  have hlen : items.length = vals.length := hf.length_eq
  have hvi := hf.get h1 (hlen ▸ h1)
  rw [hvi]
  have hgd : (vals.map (fun v => tf.formatFieldValue v false (kw.style.getD ""))).getD i
      (.val (.str "")) =
      tf.formatFieldValue (vals.get ⟨i, hlen ▸ h1⟩) false (kw.style.getD "") := by
    rw [List.getD_eq_getElem _ _ (by simpa using hlen ▸ h1)]
    simp
  rw [hgd]
  rfl

/-- In-bounds marker of the sorted record list. -/
theorem markers_getD (f : PyVal → Int) (L : List PyVal) (j : Nat) (hj : j < L.length) :
    (L.map (fun it => Marker.key (f it))).getD j Marker.tt =
      Marker.key (f (L.getD j PyVal.none)) := by
  rw [List.getD_eq_getElem _ _ (by simpa using hj), List.getD_eq_getElem _ _ hj]
  simp

/-- The breaks of a sectioned build, phrased on the section keys: a break
before row `i` exactly when `0 < i < n` and the key of row `i` differs from
the key of row `i - 1`. -/
theorem breaks_markers_iff (f : PyVal → Int) (L : List PyVal) (i : Nat) :
    (i ∈ breaksList 0 ((L.map (fun it => Marker.key (f it))).headD Marker.tt)
        (L.map (fun it => Marker.key (f it)))) ↔
      (1 ≤ i ∧ i < L.length ∧
        f (L.getD i PyVal.none) ≠ f (L.getD (i - 1) PyVal.none)) := by
  rw [mem_breaksList]
  constructor
  · rintro ⟨j, hj, rfl, hne⟩
    cases j with
    | zero =>
        exfalso
        apply hne
        cases L with
        | nil => simp at hj
        | cons a L' => simp
    | succ j =>
        have hjL : j + 1 < L.length := by simpa using hj
        refine ⟨by omega, by simpa using hjL, ?_⟩
        intro hEq
        apply hne
        rw [List.getD_cons_succ, markers_getD f L (j + 1) hjL,
          markers_getD f L j (by omega)]
        have hEq2 : f (L.getD (0 + (j + 1)) PyVal.none) =
            f (L.getD (0 + (j + 1) - 1) PyVal.none) := hEq
        simp only [Nat.zero_add, Nat.add_sub_cancel] at hEq2
        rw [hEq2]
  · rintro ⟨h1, h2, hne⟩
    refine ⟨i, by simpa using h2, by omega, ?_⟩
    obtain ⟨j, rfl⟩ : ∃ j, i = j + 1 := ⟨i - 1, by omega⟩
    rw [List.getD_cons_succ, markers_getD f L (j + 1) h2, markers_getD f L j (by omega)]
    intro hEq
    apply hne
    have h3 : f (L.getD (j + 1) PyVal.none) = f (L.getD j PyVal.none) := by
      injection hEq
    simpa using h3

/-- The assembly always equals the loop form (an empty row list zips to an
empty loop). -/
theorem normalAssemble_eq_loop (fields : List TableField)
    (contents : List TableFieldContent) (markers : List Marker) (n : Nat)
    (kw : TableOptions) :
    normalAssemble fields contents markers n kw =
      addRowsLoop ⟨normalColumns fields contents, kw, [], []⟩
        (markers.headD Marker.tt) (markers.zip (rowsFromContents contents n)) := by
  unfold normalAssemble
  cases hrows : rowsFromContents contents n with
  | nil => rw [List.zip_nil_right, addRowsLoop_nil]
  | cons r rs => rfl

/-- Shape of a successful normal core build: rows match the records in
order, and the breaks are the marker-difference offsets. -/
theorem normal_table_shape (fields : List TableField) (L : List PyVal)
    (markers : List Marker) (kw : TableOptions) (t : RTable)
    (hM : markers.length = L.length)
    (h : buildTableNormalCore fields L markers kw = .ok t) :
    List.Forall₂ (fun item row => expectedRow fields kw item = .ok row) L t.rows ∧
    t.sectionBreaksBefore = breaksList 0 (markers.headD Marker.tt) markers := by
  cases hc : mapExcept (fun tf => buildFieldContent tf L kw false) fields with
  | error e => rw [buildTableNormalCore_err _ _ _ _ _ hc] at h; exact Except.noConfusion h
  | ok contents =>
      rw [buildTableNormalCore_ok _ _ _ _ _ hc] at h
      have ht : normalAssemble fields contents markers L.length kw = t := by
        injection h
      subst ht
      rw [normalAssemble_eq_loop, addRowsLoop_spec]
      have hrlen : (rowsFromContents contents L.length).length = L.length :=
        rowsFromContents_length _ _
      constructor
      · have hsnd : (markers.zip (rowsFromContents contents L.length)).map Prod.snd =
            rowsFromContents contents L.length :=
          List.map_snd_zip _ _ (by rw [hM, hrlen])
        show List.Forall₂ _ L ([] ++ _)
        rw [List.nil_append, hsnd]
        exact rows_forall₂ fields contents L kw hc
      · have hfst : (markers.zip (rowsFromContents contents L.length)).map Prod.fst =
            markers :=
          List.map_fst_zip _ _ (by rw [hM, hrlen])
        show ([] ++ _ : List Nat) = _
        rw [List.nil_append, hfst]
        rfl

/-- Stability of `orderedInsert` through an equal-key filter: the inserted
element lands in front of the kept elements when its key matches, and the
kept elements are untouched either way. -/
theorem filter_orderedInsert (f : PyVal → Int) (k : Int) (a : PyVal) (l : List PyVal) :
    (List.orderedInsert (fun x y => f x ≤ f y) a l).filter (fun x => f x == k) =
      if f a == k then a :: l.filter (fun x => f x == k)
      else l.filter (fun x => f x == k) := by
  induction l with
  | nil => cases hfa : (f a == k) <;> simp [List.orderedInsert, List.filter, hfa]
  | cons b l ih =>
      rw [show List.orderedInsert (fun x y => f x ≤ f y) a (b :: l) =
        if f a ≤ f b then a :: b :: l
        else b :: List.orderedInsert (fun x y => f x ≤ f y) a l from rfl]
      by_cases hab : f a ≤ f b
      · rw [if_pos hab]
        cases hfa : (f a == k) <;> simp [List.filter_cons, hfa]
      · rw [if_neg hab]
        rw [List.filter_cons]
        cases hfa : (f a == k)
        · cases hfb : (f b == k) <;> simp [List.filter_cons, hfb, ih, hfa]
        · have hfb : (f b == k) = false := by
            have hk : f a = k := by simpa using hfa
            have hlt : f b < f a := by omega
            have : f b ≠ k := by omega
            simpa using this
          simp [List.filter_cons, hfb, ih, hfa]

/-- Stability of insertion sort: sorting by key does not reorder the
elements of any one key class. -/
theorem filter_insertionSort (f : PyVal → Int) (k : Int) (l : List PyVal) :
    (List.insertionSort (fun x y => f x ≤ f y) l).filter (fun x => f x == k) =
      l.filter (fun x => f x == k) := by
  induction l with
  | nil => rfl
  | cons a l ih =>
      rw [show List.insertionSort (fun x y => f x ≤ f y) (a :: l) =
        List.orderedInsert (fun x y => f x ≤ f y) a
          (List.insertionSort (fun x y => f x ≤ f y) l) from rfl]
      rw [filter_orderedInsert]
      cases hfa : (f a == k) <;> simp [List.filter_cons, hfa, ih]

/-- Claim C5: in a normal-orientation build with no section function the
emitted rows follow the input record order and no section break is emitted;
with a section function the records are stably sorted by section key (the
result is a permutation, is sorted by key, and preserves the relative order
within each key class), and a break is recorded exactly once before each row
`0 < i < n` whose key differs from the previous row's key — never before the
first row. -/
theorem claim5_normal_order_and_sections (fields : List TableField) (f : PyVal → Int)
    (items : List PyVal) (kw : TableOptions) (t t2 : RTable) :
    (buildTableNormal ⟨fields, Option.none⟩ items kw = .ok t →
      List.Forall₂ (fun item row => expectedRow fields kw item = .ok row) items t.rows ∧
      t.sectionBreaksBefore = []) ∧
    (buildTableNormal ⟨fields, some f⟩ items kw = .ok t2 →
      List.Forall₂ (fun item row => expectedRow fields kw item = .ok row)
        (sortRecords f items) t2.rows ∧
      (sortRecords f items).Perm items ∧
      List.Sorted (fun a b => f a ≤ f b) (sortRecords f items) ∧
      (∀ k : Int, (sortRecords f items).filter (fun x => f x == k) =
        items.filter (fun x => f x == k)) ∧
      t2.sectionBreaksBefore.Nodup ∧
      (∀ i, i ∈ t2.sectionBreaksBefore ↔
        1 ≤ i ∧ i < (sortRecords f items).length ∧
        f ((sortRecords f items).getD i PyVal.none) ≠
          f ((sortRecords f items).getD (i - 1) PyVal.none))) := by
  constructor
  · intro h
    have h2 : buildTableNormalCore fields items (items.map (fun _ => Marker.tt)) kw =
        .ok t := h
    obtain ⟨hrows, hbr⟩ := normal_table_shape fields items _ kw t (by simp) h2
    exact ⟨hrows, by rw [hbr, breaksList_const_tt]⟩
  · intro h
    have h2 : buildTableNormalCore fields (sortRecords f items)
        ((sortRecords f items).map (fun it => Marker.key (f it))) kw = .ok t2 := h
    obtain ⟨hrows, hbr⟩ :=
      normal_table_shape fields (sortRecords f items) _ kw t2 (by simp) h2
    refine ⟨hrows, List.perm_insertionSort _ items, ?_, ?_, ?_, ?_⟩
    · haveI : IsTotal PyVal (fun a b => f a ≤ f b) := ⟨fun a b => Int.le_total (f a) (f b)⟩
      haveI : IsTrans PyVal (fun a b => f a ≤ f b) :=
        ⟨fun a b c h1 h2 => le_trans h1 h2⟩
      exact List.sorted_insertionSort _ items
    · intro k
      exact filter_insertionSort f k items
    · rw [hbr]
      exact breaksList_nodup _ _ _
    · intro i
      rw [hbr]
      exact breaks_markers_iff f (sortRecords f items) i

/-- Witness for C5 at a concrete one-field builder, with and without a
section function, on three records with section keys 2, 1, 2. -/
theorem claim5_witness :
    (List.Forall₂ (fun item row => expectedRow [tfNameW] kwEmpty item = .ok row) C5records
       C5tableNone.rows ∧
     C5tableNone.sectionBreaksBefore = []) ∧
    (List.Forall₂ (fun item row => expectedRow [tfNameW] kwEmpty item = .ok row)
       (sortRecords secKeyW C5records) C5tableSec.rows ∧
     (sortRecords secKeyW C5records).Perm C5records ∧
     List.Sorted (fun a b => secKeyW a ≤ secKeyW b) (sortRecords secKeyW C5records) ∧
     (∀ k : Int, (sortRecords secKeyW C5records).filter (fun x => secKeyW x == k) =
       C5records.filter (fun x => secKeyW x == k)) ∧
     C5tableSec.sectionBreaksBefore.Nodup ∧
     (∀ i, i ∈ C5tableSec.sectionBreaksBefore ↔
       1 ≤ i ∧ i < (sortRecords secKeyW C5records).length ∧
       secKeyW ((sortRecords secKeyW C5records).getD i PyVal.none) ≠
         secKeyW ((sortRecords secKeyW C5records).getD (i - 1) PyVal.none))) := by
  have h := claim5_normal_order_and_sections [tfNameW] secKeyW C5records kwEmpty
    C5tableNone C5tableSec
  exact ⟨h.1 rfl, h.2 rfl⟩

end RichTableBuilder
